import Mathlib

/-!
# Verification of the databend-udf type-translation and batch-evaluation core

This file is a shallow embedding, in Lean 4, of the core of
`src/python/databend_udf/udf.py`:

* the type-descriptor translator (`_type_str_to_arrow_field`,
  `_type_str_to_arrow_field_inner`, `_arrow_field_to_string`,
  `_inner_field_to_string`, `_field_type_to_string`),
* the value codec compiler (`_input_process_func`, `_output_process_func`,
  `_ensure_str`, `_null_func`, `_list_field`),
* the batch evaluation engine (`ScalarFunction.eval_batch`) and the
  registration check in `ScalarFunction.__init__`.

Modelling conventions:

* Python strings are `List Char` (the relevant inputs are ASCII);
  `str.strip()` strips whitespace characters, `str.upper()` maps
  `Char.toUpper` over the characters.
* Python exceptions (`ValueError`, `IndexError`, `TypeError`) are modelled by
  `Except String`, carrying the exception message.  Raising is `.error`.
* `pyarrow` fields are modelled by `FieldX` (name, data type, nullability);
  the `Variant` extension metadata, which in pyarrow lives in the field
  metadata and is preserved by `with_nullable`/`with_name`, is modelled as a
  `Bool` flag on the `largeBinary` data-type constructor.  `pyarrow`
  accepts any scale for `decimal128`/`decimal256` (it validates only the
  precision, which the Python code checks first), so the decimal
  constructors are total in the scale.
* Python runtime values are modelled by `PyVal`: `None`, booleans, machine
  integers (unbounded, as in Python), `str`, `bytes` (carrying their UTF-8
  decoding; all payloads of interest are valid UTF-8), tuples, lists, and
  insertion-ordered dicts.  Floats are not needed by any claim and are
  omitted.
* The standard-library `json` module is external code; it is modelled at the
  JSON-value level: `pyDumps` returns the JSON value denoted by the text
  that `json.dumps` would emit (or the `TypeError` it would raise), and the
  emitted text itself is represented by the constructor `PyVal.jsonText`
  holding that JSON value. `pyLoads` maps a JSON value to the Python
  structure `json.loads` builds from the corresponding text.
* The recursive string functions take an explicit fuel argument so that they
  are structurally recursive and evaluate by `rfl`/`decide`; every entry
  point passes fuel strictly larger than the input length, and every
  recursive call strictly shrinks the string, so the fuel-exhaustion branch
  is unreachable from the entry points used here.
-/

/-! ## Python string primitives -/

/-- Python `str.strip()` (no argument): remove whitespace from both ends. -/
def pyStrip (l : List Char) : List Char :=
  ((l.dropWhile Char.isWhitespace).reverse.dropWhile Char.isWhitespace).reverse

/-- Python `str.upper()` on ASCII text. -/
def pyUpper (l : List Char) : List Char :=
  l.map Char.toUpper

/-- Python `str.strip("()")`: remove `(` and `)` characters from both ends. -/
def dropParens (l : List Char) : List Char :=
  ((l.dropWhile (fun c => c = '(' || c = ')')).reverse.dropWhile
    (fun c => c = '(' || c = ')')).reverse

/-- Python `str.split(",")` (no maxsplit): split on every comma, keeping
empty pieces; the empty string yields `[[]]`. -/
def splitComma : List Char → List (List Char)
  | [] => [[]]
  | c :: rest =>
    if c = ',' then [] :: splitComma rest
    else
      match splitComma rest with
      | t :: ts => (c :: t) :: ts
      | [] => [[c]]

/-- Python `sub in s` on strings: contiguous-substring test (true for the
empty substring). -/
def isSubOf (needle : List Char) : List Char → Bool
  | [] => needle.isEmpty
  | c :: rest => List.isPrefixOf needle (c :: rest) || isSubOf needle rest

/-- Digits of a decimal numeral, or `none` if empty or not all digits. -/
def digitsToNat : List Char → Option Nat
  | [] => Option.none
  | l => l.foldl (fun acc c =>
      acc.bind (fun n => if c.isDigit then some (n * 10 + (c.toNat - 48)) else Option.none))
      (some 0)

/-- Python `int(s)` on a stripped string: optional sign followed by digits;
anything else raises `ValueError` (modelled as `none`). Underscore
separators are not used by any caller and are not modelled. -/
def parsePyInt (l : List Char) : Option Int :=
  match pyStrip l with
  | '-' :: ds => (digitsToNat ds).map (fun n => -(n : Int))
  | '+' :: ds => (digitsToNat ds).map (fun n => (n : Int))
  | ds => (digitsToNat ds).map (fun n => (n : Int))

/-! ## The structural type model (`pyarrow` fields) -/

mutual
/-- The `pyarrow` data types reachable from the type-descriptor parser.
`largeBinary true` is large binary with the `Extension = Variant` field
metadata (the JSON/VARIANT kind). -/
inductive DType : Type where
  | boolT | int8 | int16 | int32 | int64
  | uint8 | uint16 | uint32 | uint64
  | float32 | float64 | date32 | timestampUs
  | largeUtf8
  | largeBinary (variant : Bool)
  | decimal128 (precision scale : Int)
  | decimal256 (precision scale : Int)
  | listT (elem : FieldX)
  | mapT (key val : FieldX)
  | structT (fields : List FieldX)

/-- A `pyarrow.Field`: name, data type, nullability. -/
inductive FieldX : Type where
  | mk (name : String) (dtype : DType) (nullable : Bool)
end

/-- The field's name. -/
def FieldX.name : FieldX → String
  | .mk n _ _ => n

/-- The field's data type. -/
def FieldX.dtype : FieldX → DType
  | .mk _ t _ => t

/-- The field's nullability. -/
def FieldX.nullable : FieldX → Bool
  | .mk _ _ b => b

/-- `pyarrow.Field.with_nullable`: replace the nullability, keeping name,
type and metadata. -/
def FieldX.withNullable (b : Bool) : FieldX → FieldX
  | .mk n t _ => .mk n t b

/-- `pyarrow.Field.with_name`: replace the name, keeping type, nullability
and metadata. -/
def FieldX.withName (n : String) : FieldX → FieldX
  | .mk _ t b => .mk n t b

/-! ## The type-descriptor parser

`_type_str_to_arrow_field_inner` (udf.py lines 446-529) and
`_type_str_to_arrow_field` (lines 431-443), embedded over `List Char`.
The recursion is fuel-indexed; each recursive call is on a strictly shorter
string, and the entry point supplies fuel `length + 1`, so the fuel branch
is unreachable there. -/

/-- Lines 497-509 of udf.py: validation and compilation of
`DECIMAL(precision, scale)` once the two integers are parsed.
`MAX_DECIMAL128_PRECISION = 38`, `MAX_DECIMAL256_PRECISION = 76`. -/
def decimalFromParts (precision scale : Int) : Except String DType :=
  if precision < 1 || precision > 76 then
    .error "Decimal precision must be between 1 and 76"
  else if scale > precision then
    .error "Decimal scale must be between 0 and precision"
  else if precision < 38 then
    .ok (.decimal128 precision scale)
  else
    .ok (.decimal256 precision scale)

/-- Keyword membership helper: the Python `type_str in ("A", "B", ...)`
tuple-membership test (string equality against each element). -/
def kwIn (s : List Char) (kws : List String) : Bool :=
  kws.any (fun k => s == k.data)

/-- `_type_str_to_arrow_field_inner` (udf.py lines 446-529). Branches are in
source order. Note the quirks of the source, which are modelled faithfully:
`type_str in ("BINARY")` is a Python *substring* test against the single
string `"BINARY"` (the parentheses do not build a tuple), and the compound
branches strip *all* leading/trailing parens with `strip("()")`. -/
def typeStrToFieldInner : Nat → List Char → Except String FieldX
  | 0, _ => .error "model: recursion fuel exhausted"
  | fuel + 1, s0 =>
    let s := pyUpper (pyStrip s0)
    if kwIn s ["BOOLEAN", "BOOL"] then .ok (.mk "" .boolT false)
    else if kwIn s ["TINYINT", "INT8"] then .ok (.mk "" .int8 false)
    else if kwIn s ["SMALLINT", "INT16"] then .ok (.mk "" .int16 false)
    else if kwIn s ["INT", "INTEGER", "INT32"] then .ok (.mk "" .int32 false)
    else if kwIn s ["BIGINT", "INT64"] then .ok (.mk "" .int64 false)
    else if kwIn s ["TINYINT UNSIGNED", "UINT8"] then .ok (.mk "" .uint8 false)
    else if kwIn s ["SMALLINT UNSIGNED", "UINT16"] then .ok (.mk "" .uint16 false)
    else if kwIn s ["INT UNSIGNED", "INTEGER UNSIGNED", "UINT32"] then
      .ok (.mk "" .uint32 false)
    else if kwIn s ["BIGINT UNSIGNED", "UINT64"] then .ok (.mk "" .uint64 false)
    else if kwIn s ["FLOAT", "FLOAT32"] then .ok (.mk "" .float32 false)
    else if kwIn s ["FLOAT64", "DOUBLE"] then .ok (.mk "" .float64 false)
    else if s == "DATE".data then .ok (.mk "" .date32 false)
    else if kwIn s ["DATETIME", "TIMESTAMP"] then .ok (.mk "" .timestampUs false)
    else if kwIn s ["STRING", "VARCHAR", "CHAR", "CHARACTER", "TEXT"] then
      .ok (.mk "" .largeUtf8 false)
    else if isSubOf s "BINARY".data then .ok (.mk "" (.largeBinary false) false)
    else if kwIn s ["VARIANT", "JSON"] then .ok (.mk "" (.largeBinary true) false)
    else if List.isPrefixOf "NULLABLE".data s then
      (typeStrToFieldInner fuel (pyStrip (dropParens (s.drop 8)))).map
        (FieldX.withNullable true)
    else if List.isSuffixOf "NULL".data s then
      (typeStrToFieldInner fuel (pyStrip (s.take (s.length - 4)))).map
        (FieldX.withNullable true)
    else if List.isPrefixOf "DECIMAL".data s then
      match splitComma (dropParens (s.drop 7)) with
      | p0 :: rest =>
        match parsePyInt (pyStrip p0) with
        | Option.none => .error "invalid literal for int() with base 10"
        | some precision =>
          match rest with
          | s1 :: _ =>
            match parsePyInt (pyStrip s1) with
            | Option.none => .error "invalid literal for int() with base 10"
            | some scale =>
              (decimalFromParts precision scale).map (fun t => .mk "" t false)
          | [] => .error "IndexError: list index out of range"
      | [] => .error "IndexError: list index out of range"
    else if List.isPrefixOf "ARRAY".data s then
      (typeStrToFieldInner fuel (pyStrip (dropParens (s.drop 5)))).map
        (fun f => .mk "" (.listT f) false)
    else if List.isPrefixOf "MAP".data s then
      match splitComma (dropParens (s.drop 3)) with
      | k0 :: rest =>
        match typeStrToFieldInner fuel (pyStrip k0) with
        | .error e => .error e
        | .ok keyField =>
          match rest with
          | v0 :: _ =>
            match typeStrToFieldInner fuel (pyStrip v0) with
            | .error e => .error e
            | .ok valField => .ok (.mk "" (.mapT keyField valField) false)
          | [] => .error "IndexError: list index out of range"
      | [] => .error "IndexError: list index out of range"
    else if List.isPrefixOf "TUPLE".data s then
      ((splitComma (dropParens (s.drop 5))).mapM
          (fun piece => typeStrToFieldInner fuel (pyStrip piece))).map
        (fun fs => .mk "" (.structT fs) false)
    else
      .error ("Unsupported type: " ++ String.mk s)

/-- `_type_str_to_arrow_field` (udf.py lines 431-443): strip/uppercase, peel
a trailing `NULL` / `NOT NULL` modifier, then parse the inner type and force
the resulting nullability (default nullable). -/
def typeStrToField (l : List Char) : Except String FieldX :=
  let t := pyUpper (pyStrip l)
  if List.isSuffixOf "NULL".data t then
    let t2 := pyStrip (t.take (t.length - 4))
    if List.isSuffixOf "NOT".data t2 then
      (typeStrToFieldInner (l.length + 1) (pyStrip (t2.take (t2.length - 3)))).map
        (FieldX.withNullable false)
    else
      (typeStrToFieldInner (l.length + 1) t2).map (FieldX.withNullable true)
  else
    (typeStrToFieldInner (l.length + 1) t).map (FieldX.withNullable true)

/-- Parse a SQL type-descriptor string to a field. -/
def parseField (s : String) : Except String FieldX :=
  typeStrToField s.data

/-! ## The type formatter

`_field_type_to_string` / `_inner_field_to_string` / `_arrow_field_to_string`
(udf.py lines 532-594). -/

mutual
/-- `_field_type_to_string` (udf.py lines 546-594), recursing on the data
type (the variant metadata of the field is part of `DType.largeBinary` in
this model). All our model types are in the supported set, so no error
branch is needed: every `DType` value corresponds to a type the source
function formats. -/
def dtypeToString : DType → String
  | .boolT => "BOOLEAN"
  | .int8 => "TINYINT"
  | .int16 => "SMALLINT"
  | .int32 => "INT"
  | .int64 => "BIGINT"
  | .uint8 => "TINYINT UNSIGNED"
  | .uint16 => "SMALLINT UNSIGNED"
  | .uint32 => "INT UNSIGNED"
  | .uint64 => "BIGINT UNSIGNED"
  | .float32 => "FLOAT"
  | .float64 => "DOUBLE"
  | .decimal128 p s => "DECIMAL(" ++ toString p ++ ", " ++ toString s ++ ")"
  | .decimal256 p s => "DECIMAL(" ++ toString p ++ ", " ++ toString s ++ ")"
  | .date32 => "DATE"
  | .timestampUs => "TIMESTAMP"
  | .largeUtf8 => "VARCHAR"
  | .largeBinary variant => if variant then "VARIANT" else "BINARY"
  | .listT e => "ARRAY(" ++ innerFieldToString e ++ ")"
  | .mapT k v => "MAP(" ++ innerFieldToString k ++ ", " ++ innerFieldToString v ++ ")"
  | .structT fs => "TUPLE(" ++ ", ".intercalate (innerFieldsToString fs) ++ ")"

/-- `_inner_field_to_string` (udf.py lines 540-543): inner fields default to
NOT NULL in Databend, so a nullable inner field gets a ` NULL` suffix. -/
def innerFieldToString : FieldX → String
  | .mk _ t b => if b then dtypeToString t ++ " NULL" else dtypeToString t

/-- Formats each field of a struct via `innerFieldToString`. -/
def innerFieldsToString : List FieldX → List String
  | [] => []
  | f :: fs => innerFieldToString f :: innerFieldsToString fs
end

/-- `_arrow_field_to_string` (udf.py lines 532-537): top-level fields default
to nullable, so a non-nullable field gets a ` NOT NULL` suffix. -/
def arrowFieldToString : FieldX → String
  | .mk _ t b => if b then dtypeToString t else dtypeToString t ++ " NOT NULL"

/-! ## Python runtime values and the JSON value model -/

/-- A JSON value: the parse tree of a piece of JSON text.  Serialized JSON
text is represented by its JSON value (floats are not needed by any claim
and are omitted). -/
inductive JVal : Type where
  | null
  | jb (b : Bool)
  | ji (n : Int)
  | js (s : String)
  | jarr (xs : List JVal)
  | jobj (kvs : List (String × JVal))

/-- A Python runtime value, restricted to the kinds the codecs deal with.
`bytes` carries the UTF-8 decoding of the byte string (all payloads of
interest are valid UTF-8); `dict` is insertion-ordered; `jsonText j` is a
`str` whose content is JSON text denoting `j` (the representation of
`json.dumps` output in this model). -/
inductive PyVal : Type where
  | none
  | bool (b : Bool)
  | int (n : Int)
  | str (s : String)
  | bytes (s : String)
  | tup (xs : List PyVal)
  | list (xs : List PyVal)
  | dict (kvs : List (PyVal × PyVal))
  | jsonText (j : JVal)

/-- Is this value Python's `None`?  (`x in args` and `v is not None` tests
against `None` reduce to this: `None` compares equal only to itself.) -/
def isNone : PyVal → Bool
  | .none => true
  | _ => false

mutual
/-- Python `==` on the values that can appear as `dict` keys in the
modelled fragment (scalars and tuples of them).  Unhashable values (lists,
dicts) cannot be Python dict keys and are never compared here; Python's
numeric-tower equalities (`True == 1`) are outside the modelled fragment. -/
def pyEqB : PyVal → PyVal → Bool
  | .none, .none => true
  | .bool a, .bool b => a == b
  | .int a, .int b => a == b
  | .str a, .str b => a == b
  | .bytes a, .bytes b => a == b
  | .tup xs, .tup ys => pyEqList xs ys
  | _, _ => false

/-- Elementwise `pyEqB`, requiring equal lengths. -/
def pyEqList : List PyVal → List PyVal → Bool
  | [], [] => true
  | x :: xs, y :: ys => pyEqB x y && pyEqList xs ys
  | _, _ => false
end

/-- Python `dict(pairs)` / dict-comprehension semantics: keys are
deduplicated; a repeated key keeps its first position and takes its last
value. -/
def mkDict (kvs : List (PyVal × PyVal)) : List (PyVal × PyVal) :=
  kvs.foldl (fun acc kv =>
    if acc.any (fun e => pyEqB e.1 kv.1) then
      acc.map (fun e => if pyEqB e.1 kv.1 then (e.1, kv.2) else e)
    else acc ++ [kv]) []

mutual
/-- `_ensure_str` (udf.py lines 402-410): recursively decode `bytes` to
`str` inside lists and dicts (both keys and values).  Tuples and every
other kind are returned unchanged — the source only recurses into `list`
and `dict`. -/
def ensureStr : PyVal → PyVal
  | .bytes s => .str s
  | .list xs => .list (ensureStrList xs)
  | .dict kvs => .dict (mkDict (ensureStrKVs kvs))
  | x => x
termination_by v => sizeOf v
decreasing_by all_goals (simp only [PyVal.list.sizeOf_spec, PyVal.dict.sizeOf_spec,
  PyVal.tup.sizeOf_spec, JVal.jarr.sizeOf_spec, JVal.jobj.sizeOf_spec,
  List.cons.sizeOf_spec, Prod.mk.sizeOf_spec]; omega)

/-- `_ensure_str` mapped over the elements of a list. -/
def ensureStrList : List PyVal → List PyVal
  | [] => []
  | x :: xs => ensureStr x :: ensureStrList xs
termination_by l => sizeOf l
decreasing_by all_goals (simp only [PyVal.list.sizeOf_spec, PyVal.dict.sizeOf_spec,
  PyVal.tup.sizeOf_spec, JVal.jarr.sizeOf_spec, JVal.jobj.sizeOf_spec,
  List.cons.sizeOf_spec, Prod.mk.sizeOf_spec]; omega)

/-- `_ensure_str` applied to both components of each key-value pair. -/
def ensureStrKVs : List (PyVal × PyVal) → List (PyVal × PyVal)
  | [] => []
  | (k, w) :: r => (ensureStr k, ensureStr w) :: ensureStrKVs r
termination_by l => sizeOf l
decreasing_by all_goals (simp only [PyVal.list.sizeOf_spec, PyVal.dict.sizeOf_spec,
  PyVal.tup.sizeOf_spec, JVal.jarr.sizeOf_spec, JVal.jobj.sizeOf_spec,
  List.cons.sizeOf_spec, Prod.mk.sizeOf_spec]; omega)
end

/-- `json.dumps` key conversion: a `str` key is used as is; `int`, `bool`
and `None` keys are coerced to their JSON text; other kinds raise
`TypeError`. -/
def keyToStr : PyVal → Except String String
  | .str s => .ok s
  | .int n => .ok (toString n)
  | .bool b => .ok (if b then "true" else "false")
  | .none => .ok "null"
  | _ => .error "TypeError: keys must be str, int, float, bool or None"

mutual
/-- `json.dumps`, modelled at the JSON-value level: the result is the JSON
value denoted by the emitted text, or the `TypeError` `json.dumps` raises on
non-serializable input (in particular on any `bytes` anywhere in the
structure).  Tuples are serialized as JSON arrays. -/
def pyDumps : PyVal → Except String JVal
  | .none => .ok .null
  | .bool b => .ok (.jb b)
  | .int n => .ok (.ji n)
  | .str s => .ok (.js s)
  | .bytes _ => .error "TypeError: Object of type bytes is not JSON serializable"
  | .jsonText _ => .error "model: nested serialized text is outside the modelled fragment"
  | .tup xs => (pyDumpsList xs).map .jarr
  | .list xs => (pyDumpsList xs).map .jarr
  | .dict kvs => (pyDumpsKVs kvs).map .jobj
termination_by v => sizeOf v
decreasing_by all_goals (simp only [PyVal.list.sizeOf_spec, PyVal.dict.sizeOf_spec,
  PyVal.tup.sizeOf_spec, JVal.jarr.sizeOf_spec, JVal.jobj.sizeOf_spec,
  List.cons.sizeOf_spec, Prod.mk.sizeOf_spec]; omega)

/-- `json.dumps` of the elements of a sequence, left to right. -/
def pyDumpsList : List PyVal → Except String (List JVal)
  | [] => .ok []
  | x :: xs => do
    let j ← pyDumps x
    let js ← pyDumpsList xs
    .ok (j :: js)
termination_by l => sizeOf l
decreasing_by all_goals (simp only [PyVal.list.sizeOf_spec, PyVal.dict.sizeOf_spec,
  PyVal.tup.sizeOf_spec, JVal.jarr.sizeOf_spec, JVal.jobj.sizeOf_spec,
  List.cons.sizeOf_spec, Prod.mk.sizeOf_spec]; omega)

/-- `json.dumps` of the entries of an object: keys via `keyToStr`, values
recursively, left to right. -/
def pyDumpsKVs : List (PyVal × PyVal) → Except String (List (String × JVal))
  | [] => .ok []
  | (k, w) :: r => do
    let ks ← keyToStr k
    let jw ← pyDumps w
    let rest ← pyDumpsKVs r
    .ok ((ks, jw) :: rest)
termination_by l => sizeOf l
decreasing_by all_goals (simp only [PyVal.list.sizeOf_spec, PyVal.dict.sizeOf_spec,
  PyVal.tup.sizeOf_spec, JVal.jarr.sizeOf_spec, JVal.jobj.sizeOf_spec,
  List.cons.sizeOf_spec, Prod.mk.sizeOf_spec]; omega)
end

mutual
/-- `json.loads`, modelled at the JSON-value level: build the Python value
for a JSON value.  Arrays become lists, objects become dicts with `str`
keys (duplicate keys: last value wins, as in CPython). -/
def pyLoads : JVal → PyVal
  | .null => .none
  | .jb b => .bool b
  | .ji n => .int n
  | .js s => .str s
  | .jarr xs => .list (pyLoadsList xs)
  | .jobj kvs => .dict (mkDict (pyLoadsKVs kvs))
termination_by j => sizeOf j
decreasing_by all_goals (simp only [PyVal.list.sizeOf_spec, PyVal.dict.sizeOf_spec,
  PyVal.tup.sizeOf_spec, JVal.jarr.sizeOf_spec, JVal.jobj.sizeOf_spec,
  List.cons.sizeOf_spec, Prod.mk.sizeOf_spec]; omega)

/-- `json.loads` of the elements of an array. -/
def pyLoadsList : List JVal → List PyVal
  | [] => []
  | x :: xs => pyLoads x :: pyLoadsList xs
termination_by l => sizeOf l
decreasing_by all_goals (simp only [PyVal.list.sizeOf_spec, PyVal.dict.sizeOf_spec,
  PyVal.tup.sizeOf_spec, JVal.jarr.sizeOf_spec, JVal.jobj.sizeOf_spec,
  List.cons.sizeOf_spec, Prod.mk.sizeOf_spec]; omega)

/-- `json.loads` of the entries of an object. -/
def pyLoadsKVs : List (String × JVal) → List (PyVal × PyVal)
  | [] => []
  | (k, j) :: r => (.str k, pyLoads j) :: pyLoadsKVs r
termination_by l => sizeOf l
decreasing_by all_goals (simp only [PyVal.list.sizeOf_spec, PyVal.dict.sizeOf_spec,
  PyVal.tup.sizeOf_spec, JVal.jarr.sizeOf_spec, JVal.jobj.sizeOf_spec,
  List.cons.sizeOf_spec, Prod.mk.sizeOf_spec]; omega)
end


/-! ## Variant payloads: well-formedness and structural equivalence

These definitions support the analysis of the variant codec round trip.
`wfVariant` delimits the fragment of Python values the round-trip property
is about; `jsonImageB` characterizes the values `json.loads` can produce;
`VariantEquiv` is the spec-side notion of "equivalent nested structure"
(equal up to replacing a byte string by its UTF-8 decoding). -/

/-- Keys of later entries never repeat the head key (with respect to
Python `==` on keys); under this condition `dict`-construction keeps the
pair list unchanged. -/
def keysNodupB : List (PyVal × PyVal) → Bool
  | [] => true
  | (k, _) :: r => !(r.any (fun kv => pyEqB k kv.1)) && keysNodupB r

/-- A key the variant encoder turns into JSON text: `str` or `bytes`. -/
def wfKeyB : PyVal → Bool
  | .str _ => true
  | .bytes _ => true
  | _ => false

mutual
/-- The fragment of Python values for which the variant codec round trip is
asserted: `None`, booleans, integers, text, byte strings, lists, and dicts
whose keys are text or byte strings and remain distinct after byte-to-text
decoding.  Tuples are excluded: `_ensure_str` does not recurse into them,
so a byte string inside a tuple makes `json.dumps` raise. -/
def wfVariant : PyVal → Bool
  | .none => true
  | .bool _ => true
  | .int _ => true
  | .str _ => true
  | .bytes _ => true
  | .list xs => wfVariantList xs
  | .dict kvs => wfVariantKVs kvs && keysNodupB (ensureStrKVs kvs)
  | _ => false
termination_by v => sizeOf v
decreasing_by all_goals (simp only [PyVal.list.sizeOf_spec, PyVal.dict.sizeOf_spec]; omega)

/-- `wfVariant` for every element of a list. -/
def wfVariantList : List PyVal → Bool
  | [] => true
  | x :: xs => wfVariant x && wfVariantList xs
termination_by l => sizeOf l
decreasing_by all_goals (simp only [List.cons.sizeOf_spec]; omega)

/-- `wfVariant` values and `wfKeyB` keys for every entry of a dict. -/
def wfVariantKVs : List (PyVal × PyVal) → Bool
  | [] => true
  | (k, w) :: r => wfKeyB k && wfVariant w && wfVariantKVs r
termination_by l => sizeOf l
decreasing_by all_goals (simp only [List.cons.sizeOf_spec, Prod.mk.sizeOf_spec]; omega)
end

/-- Is the value a `str`?  (Key test for the `pyLoads` image.) -/
def wfKeyStrB : PyVal → Bool
  | .str _ => true
  | _ => false

mutual
/-- The image of `pyLoads` (up to key deduplication): values built from
JSON scalars, lists, and dicts with `str` keys that never repeat. -/
def jsonImageB : PyVal → Bool
  | .none => true
  | .bool _ => true
  | .int _ => true
  | .str _ => true
  | .list xs => jsonImageList xs
  | .dict kvs => jsonImageKVs kvs && keysNodupB kvs
  | _ => false
termination_by v => sizeOf v
decreasing_by all_goals (simp only [PyVal.list.sizeOf_spec, PyVal.dict.sizeOf_spec]; omega)

/-- `jsonImageB` for every element of a list. -/
def jsonImageList : List PyVal → Bool
  | [] => true
  | x :: xs => jsonImageB x && jsonImageList xs
termination_by l => sizeOf l
decreasing_by all_goals (simp only [List.cons.sizeOf_spec]; omega)

/-- `jsonImageB` values and `str` keys for every entry of a dict. -/
def jsonImageKVs : List (PyVal × PyVal) → Bool
  | [] => true
  | (k, w) :: r => wfKeyStrB k && jsonImageB w && jsonImageKVs r
termination_by l => sizeOf l
decreasing_by all_goals (simp only [List.cons.sizeOf_spec, Prod.mk.sizeOf_spec]; omega)
end

/-- Structural equivalence of Python values, as meant by the specification
of the variant round trip: equal shape and scalar content, allowing a byte
string on the left to be replaced by its UTF-8 text on the right. -/
inductive VariantEquiv : PyVal → PyVal → Prop where
  | vnone : VariantEquiv .none .none
  | vbool (b : Bool) : VariantEquiv (.bool b) (.bool b)
  | vint (n : Int) : VariantEquiv (.int n) (.int n)
  | vstr (s : String) : VariantEquiv (.str s) (.str s)
  | vbytes (s : String) : VariantEquiv (.bytes s) (.str s)
  | vlist (xs ys : List PyVal) (hlen : xs.length = ys.length)
      (helem : ∀ (i : Nat) x y, xs[i]? = some x → ys[i]? = some y → VariantEquiv x y) :
      VariantEquiv (.list xs) (.list ys)
  | vdict (kvs kws : List (PyVal × PyVal)) (hlen : kvs.length = kws.length)
      (hkey : ∀ (i : Nat) p q, kvs[i]? = some p → kws[i]? = some q → VariantEquiv p.1 q.1)
      (hval : ∀ (i : Nat) p q, kvs[i]? = some p → kws[i]? = some q → VariantEquiv p.2 q.2) :
      VariantEquiv (.dict kvs) (.dict kws)

/-! ## The value codec compiler

`_input_process_func` (udf.py lines 297-341) and `_output_process_func`
(lines 344-384), compiled recursively over the field's type.  Type
mismatches that would raise in Python (iterating a non-sequence, calling
`.values()` on a non-dict, `json.loads` on malformed bytes) are `.error`s.
The serialized JSON text consumed and produced by the variant branches is
represented by `PyVal.jsonText` (see the module comment). -/

mutual
/-- `_input_process_func` (udf.py lines 297-341). -/
def inputProcF : FieldX → PyVal → Except String PyVal
  | .mk _ (.listT ef) _, v =>
    match v with
    | .none => .ok .none
    | .list xs =>
      (xs.mapM (fun x => if isNone x then pure PyVal.none else inputProcF ef x)).map
        PyVal.list
    | _ => .error "TypeError: value is not iterable"
  | .mk _ (.structT fs) _, v =>
    match v with
    | .none => .ok .none
    | .dict kvs => (inputStructZip (kvs.map Prod.snd) fs).map PyVal.tup
    | _ => .error "AttributeError: value has no values()"
  | .mk _ (.mapT kf vf) _, v =>
    match v with
    | .none => .ok .none
    | .list items =>
      (items.mapM (fun (item : PyVal) =>
        match item with
        | .tup (a :: b :: _) => do
          let ka ← inputProcF kf a
          let vb ← inputProcF vf b
          pure (ka, vb)
        | .list (a :: b :: _) => do
          let ka ← inputProcF kf a
          let vb ← inputProcF vf b
          pure (ka, vb)
        | .tup _ => .error "ValueError: dictionary update sequence element is not length 2"
        | .list _ => .error "ValueError: dictionary update sequence element is not length 2"
        | _ => .error "TypeError: map item is not iterable")).map
        (fun prs => .dict (mkDict prs))
    | _ => .error "TypeError: value is not iterable"
  | .mk _ (.largeBinary true) _, v =>
    match v with
    | .none => .ok .none
    | .jsonText j => .ok (pyLoads j)
    | _ => .error "SerializationError: malformed or unmodelled variant payload"
  | .mk _ _ _, v => .ok v
termination_by f _ => sizeOf f
decreasing_by all_goals (simp only [FieldX.mk.sizeOf_spec, DType.listT.sizeOf_spec,
  DType.structT.sizeOf_spec, DType.mapT.sizeOf_spec]; omega)

/-- The struct branch of `_input_process_func` (udf.py lines 312-323):
`tuple(func(v) if v is not None else None for v, func in zip(map.values(), funcs))`
— the record's values, in the record's own order, are paired positionally
with the declared fields' decoders; `zip` stops at the shorter side. -/
def inputStructZip : List PyVal → List FieldX → Except String (List PyVal)
  | x :: xs, f :: fs => do
    let y ← if isNone x then pure PyVal.none else inputProcF f x
    let ys ← inputStructZip xs fs
    pure (y :: ys)
  | _, _ => .ok []
termination_by _ fs => sizeOf fs
decreasing_by all_goals (simp only [List.cons.sizeOf_spec]; omega)
end

mutual
/-- `_output_process_func` (udf.py lines 344-384). -/
def outputProcF : FieldX → PyVal → Except String PyVal
  | .mk _ (.listT ef) _, v =>
    match v with
    | .none => .ok .none
    | .list xs =>
      (xs.mapM (fun x => if isNone x then pure PyVal.none else outputProcF ef x)).map
        PyVal.list
    | _ => .error "TypeError: value is not iterable"
  | .mk _ (.structT fs) _, v =>
    match v with
    | .none => .ok .none
    | .tup xs => (outputStructZip xs fs).map PyVal.tup
    | .list xs => (outputStructZip xs fs).map PyVal.tup
    | _ => .error "TypeError: value is not iterable"
  | .mk _ (.mapT kf vf) _, v =>
    match v with
    | .none => .ok .none
    | .dict kvs =>
      (kvs.mapM (fun (kv : PyVal × PyVal) => do
        let k ← outputProcF kf kv.1
        let w ← outputProcF vf kv.2
        pure (PyVal.tup [k, w]))).map PyVal.list
    | _ => .error "AttributeError: value has no items()"
  | .mk _ (.largeBinary true) _, v =>
    match v with
    | .none => .ok .none
    | w => (pyDumps (ensureStr w)).map .jsonText
  | .mk _ _ _, v => .ok v
termination_by f _ => sizeOf f
decreasing_by all_goals (simp only [FieldX.mk.sizeOf_spec, DType.listT.sizeOf_spec,
  DType.structT.sizeOf_spec, DType.mapT.sizeOf_spec]; omega)

/-- The struct branch of `_output_process_func` (udf.py lines 358-366):
`tuple(func(v) if v is not None else None for v, func in zip(tup, funcs))`. -/
def outputStructZip : List PyVal → List FieldX → Except String (List PyVal)
  | x :: xs, f :: fs => do
    let y ← if isNone x then pure PyVal.none else outputProcF f x
    let ys ← outputStructZip xs fs
    pure (y :: ys)
  | _, _ => .ok []
termination_by _ fs => sizeOf fs
decreasing_by all_goals (simp only [List.cons.sizeOf_spec]; omega)
end

/-- `_list_field` (udf.py lines 391-392): wrap a field in a list field
(`pa.field` defaults to nullable). -/
def listField (f : FieldX) : FieldX :=
  .mk "" (.listT f) true

/-- `_null_func` (udf.py lines 387-388): ignores its arguments and returns
`None`. -/
def nullFunc : List PyVal → Except String PyVal :=
  fun _ => .ok .none

/-! ## The batch evaluation engine

`ScalarFunction.eval_batch` (udf.py lines 106-145).  A user function is a
Lean function from the argument list to `Except String PyVal` (it may raise).
In batch mode it receives one argument per input field, each being the full
decoded column (`PyVal.list`), and returns the whole result column. -/

/-- Row-argument extraction: `args = [col[row] for col in inputs]`
(udf.py line 121/134).  Batches deliver aligned columns (row count equals
every column's length), so the `getD` default is never exercised in the
modelled uses. -/
def rowArgs (inputs : List (List PyVal)) (row : Nat) : List PyVal :=
  inputs.map (fun col => col.getD row PyVal.none)

/-- The tasks submitted to the per-function executor (udf.py lines 118-128):
one task per row, holding the scheduled function and its arguments.  With
`skip_null` set, a row whose arguments contain `None` gets `_null_func`
scheduled instead of the user function. -/
def concTasks (f : List PyVal → Except String PyVal) (skipNull : Bool) (n : Nat)
    (inputs : List (List PyVal)) :
    List ((List PyVal → Except String PyVal) × List PyVal) :=
  if skipNull then
    (List.range n).map (fun row =>
      let args := rowArgs inputs row
      (if args.any isNone then nullFunc else f, args))
  else
    (List.range n).map (fun row => (f, rowArgs inputs row))

/-- The mode dispatch of `ScalarFunction.eval_batch` (udf.py lines 113-140),
producing the raw result column (before output processing): batch mode calls
the function once on the full columns; executor mode submits `concTasks` and
collects `future.result()` in row order; otherwise the rows are evaluated
sequentially, with `skip_null` short-circuiting null rows to `None`. -/
def evalDispatch (f : List PyVal → Except String PyVal)
    (batchMode skipNull hasExecutor : Bool) (n : Nat)
    (inputs : List (List PyVal)) : Except String PyVal :=
  if batchMode then
    f (inputs.map PyVal.list)
  else if hasExecutor then
    ((concTasks f skipNull n inputs).mapM
      (fun (t : (List PyVal → Except String PyVal) × List PyVal) => t.1 t.2)).map PyVal.list
  else if skipNull then
    ((List.range n).mapM (fun row =>
      let args := rowArgs inputs row
      if args.any isNone then pure PyVal.none else f args)).map .list
  else
    ((List.range n).mapM (fun row => f (rowArgs inputs row))).map .list

/-- A registered scalar function (the fields of `ScalarFunction` that the
evaluation engine reads). -/
structure ScalarFn where
  name : String
  func : List PyVal → Except String PyVal
  inputFields : List FieldX
  resultField : FieldX
  skipNull : Bool
  batchMode : Bool
  hasExecutor : Bool

/-- `ScalarFunction.__init__` (udf.py lines 66-104): build the input schema
by zipping the function's argument names with the parsed input types, build
the single-field output schema named `output`, create the executor iff
`io_threads` is given, and reject `skip_null` with a non-nullable result
type before the function object exists.  `skip_null=None` (the default)
counts as false, and the stored flag is `skip_null or False`. -/
def scalarFunctionInit (fname : String) (func : List PyVal → Except String PyVal)
    (argNames : List String) (inputTypes : List String) (resultType : String)
    (ioThreads : Option Nat) (skipNull : Option Bool) (batchMode : Bool) :
    Except String ScalarFn := do
  let parsedIn ← inputTypes.mapM parseField
  let inFields := (argNames.zip parsedIn).map (fun p => p.2.withName p.1)
  let resF0 ← parseField resultType
  let resF := resF0.withName "output"
  if (skipNull.getD false) && !resF.nullable then
    .error ("Return type of function " ++ fname ++
      " must be nullable when skip_null is True")
  else
    .ok ⟨fname, func, inFields, resF, skipNull.getD false, batchMode, ioThreads.isSome⟩

/-- One column decoded through the compiled codec of its (list-wrapped)
field, as in `_input_process_func(_list_field(field))(array)`
(udf.py lines 108-111).  The list codec applied to a list always returns a
list, so the middle branch is unreachable. -/
def decodeColumn (fld : FieldX) (col : List PyVal) : Except String (List PyVal) :=
  match inputProcF (listField fld) (.list col) with
  | .ok (.list c) => .ok c
  | .ok _ => .error "model: list codec did not return a list"
  | .error e => .error e

/-- `ScalarFunction.eval_batch` (udf.py lines 106-145): decode each column
through its field's codec, dispatch on the execution mode, and encode the
result column through the output field's codec.  The resulting value is
the single output column of the (single) output batch; any `.error` means
the exception propagated and no output batch was produced. -/
def evalBatchFn (fn : ScalarFn) (n : Nat) (rawCols : List (List PyVal)) :
    Except String PyVal := do
  let inputs ← (rawCols.zip fn.inputFields).mapM (fun p => decodeColumn p.2 p.1)
  let column ← evalDispatch fn.func fn.batchMode fn.skipNull fn.hasExecutor n inputs
  outputProcF (listField fn.resultField) column

/-- `do_exchange_impl` (udf.py lines 219-227): evaluate every inbound batch
in order, forwarding each output batch; an exception is logged and re-raised
*unchanged* (`raise e`), aborting the exchange.  A batch is a row count
together with its aligned columns. -/
def doExchangeImpl (fn : ScalarFn) (batches : List (Nat × List (List PyVal))) :
    Except String (List PyVal) :=
  batches.mapM (fun b => evalBatchFn fn b.1 b.2)
/-! ## General lemmas: `Except`, `List.mapM`, small facts about the model -/

@[simp] theorem exceptOkBind {ε α β : Type} (a : α) (f : α → Except ε β) :
    (Except.ok a >>= f) = f a := rfl

@[simp] theorem exceptErrorBind {ε α β : Type} (e : ε) (f : α → Except ε β) :
    ((Except.error e : Except ε α) >>= f) = .error e := rfl

@[simp] theorem exceptMapOk {ε α β : Type} (g : α → β) (a : α) :
    Except.map g (Except.ok a : Except ε α) = .ok (g a) := rfl

@[simp] theorem exceptMapError {ε α β : Type} (g : α → β) (e : ε) :
    Except.map g (Except.error e : Except ε α) = .error e := rfl

@[simp] theorem exceptPureEq {ε α : Type} (a : α) : (pure a : Except ε α) = .ok a := rfl

theorem isNone_iff (x : PyVal) : isNone x = true ↔ x = .none := by
  cases x <;> simp [isNone]

theorem withName_nullable (n : String) (f : FieldX) :
    (f.withName n).nullable = f.nullable := by
  cases f; rfl

theorem mapM_ok_of {α β : Type} (l : List α) (F : α → Except String β) (g : α → β)
    (h : ∀ a ∈ l, F a = .ok (g a)) : l.mapM F = .ok (l.map g) := by
  induction l with
  | nil => rfl
  | cons x xs ih =>
    rw [List.mapM_cons, h x (List.mem_cons_self x xs)]
    rw [ih (fun a ha => h a (List.mem_cons_of_mem x ha))]
    rfl

theorem mapM_error_append {α β : Type} (l1 l2 : List α) (a : α)
    (F : α → Except String β) (e : String)
    (h1 : ∀ x ∈ l1, ∃ v, F x = .ok v) (h2 : F a = .error e) :
    (l1 ++ a :: l2).mapM F = .error e := by
  induction l1 with
  | nil =>
    rw [List.nil_append, List.mapM_cons, h2]
    rfl
  | cons x xs ih =>
    obtain ⟨v, hv⟩ := h1 x (List.mem_cons_self x xs)
    rw [List.cons_append, List.mapM_cons, hv]
    have h3 := ih (fun y hy => h1 y (List.mem_cons_of_mem x hy))
    simp only [List.mapM] at h3
    simp [h3]

theorem mapM_ok_pointwise {α β : Type} (l : List α) (F : α → Except String β)
    (ys : List β) (h : l.mapM F = .ok ys) :
    ys.length = l.length ∧
      ∀ (i : Nat) x, l[i]? = some x → ∃ y, ys[i]? = some y ∧ F x = .ok y := by
  induction l generalizing ys with
  | nil =>
    rw [List.mapM_nil] at h
    cases h
    exact ⟨rfl, fun i x hx => by simp at hx⟩
  | cons a as ih =>
    rw [List.mapM_cons] at h
    cases hF : F a with
    | error e => rw [hF] at h; simp at h
    | ok y =>
      rw [hF] at h
      cases hM : as.mapM F with
      | error e => rw [hM] at h; simp at h
      | ok ys' =>
        rw [hM] at h
        simp at h
        obtain ⟨hlen, hpt⟩ := ih ys' hM
        subst h
        refine ⟨by simp [hlen], fun i x hx => ?_⟩
        cases i with
        | zero =>
          simp at hx
          subst hx
          exact ⟨y, by simp, hF⟩
        | succ j =>
          simp at hx
          obtain ⟨y', hy', hFy'⟩ := hpt j x hx
          exact ⟨y', by simpa using hy', hFy'⟩

theorem mapM_map {α β γ : Type} (l : List α) (g : α → β) (F : β → Except String γ) :
    (l.map g).mapM F = l.mapM (fun a => F (g a)) := by
  induction l with
  | nil => rfl
  | cons x xs ih => rw [List.map_cons, List.mapM_cons, List.mapM_cons, ih]

theorem mapM_congr {α β : Type} (l : List α) (F1 F2 : α → Except String β)
    (h : ∀ a ∈ l, F1 a = F2 a) : l.mapM F1 = l.mapM F2 := by
  induction l with
  | nil => rfl
  | cons x xs ih =>
    rw [List.mapM_cons, List.mapM_cons, h x (List.mem_cons_self x xs),
      ih (fun a ha => h a (List.mem_cons_of_mem x ha))]

/-! ## Claim theorems -/

/-- **C1** (the code violates the round-trip property the spec demands):
`ARRAY(ARRAY(NULLABLE(INT)))` parses to a non-nullable inner array of
nullable INT, but its formatted form `ARRAY(ARRAY(INT NULL))` re-parses to
a *nullable* inner array of non-nullable INT — the parser's paren-stripping
moves the inner `NULL` marker one nesting level up, so
`parse(format(parse(s)))` differs from `parse(s)` with nullability at
nesting levels exchanged. -/
theorem parse_format_roundtrip_fails :
    parseField "ARRAY(ARRAY(NULLABLE(INT)))" =
      .ok (.mk "" (.listT (.mk "" (.listT (.mk "" .int32 true)) false)) true) ∧
    arrowFieldToString
        (.mk "" (.listT (.mk "" (.listT (.mk "" .int32 true)) false)) true) =
      "ARRAY(ARRAY(INT NULL))" ∧
    parseField "ARRAY(ARRAY(INT NULL))" =
      .ok (.mk "" (.listT (.mk "" (.listT (.mk "" .int32 false)) true)) true) ∧
    FieldX.mk "" (.listT (.mk "" (.listT (.mk "" .int32 true)) false)) true ≠
      FieldX.mk "" (.listT (.mk "" (.listT (.mk "" .int32 false)) true)) true := by
  refine ⟨rfl, rfl, rfl, fun h => ?_⟩
  simp at h

/-- **C2** (the code misses the lower scale bound its own error message
documents): `DECIMAL(10,-1)` — scale below 0 — is *accepted* and compiled
to `decimal128(10, -1)`, although the invariant (and the code's error
message "Decimal scale must be between 0 and precision") requires
`0 ≤ scale`; the other bounds behave as claimed. -/
theorem decimal_negative_scale_accepted :
    parseField "DECIMAL(10,-1)" = .ok (.mk "" (.decimal128 10 (-1)) true) ∧
    parseField "DECIMAL(0,0)" = .error "Decimal precision must be between 1 and 76" ∧
    parseField "DECIMAL(77,0)" = .error "Decimal precision must be between 1 and 76" ∧
    parseField "DECIMAL(10,11)" = .error "Decimal scale must be between 0 and precision" ∧
    parseField "DECIMAL(10,5)" = .ok (.mk "" (.decimal128 10 5) true) :=
  ⟨rfl, rfl, rfl, rfl, rfl⟩

/-- **C5**: in batch mode the dispatch is a single call of the user function
on the full decoded columns (one `PyVal.list` per input field, nulls
included), whose result is the whole output column; the `skipNull` and
`hasExecutor` flags and the row count are ignored. -/
theorem batch_mode_single_call (f : List PyVal → Except String PyVal)
    (skipNull hasExecutor : Bool) (n : Nat) (inputs : List (List PyVal)) :
    evalDispatch f true skipNull hasExecutor n inputs = f (inputs.map PyVal.list) := rfl

/-- **C5 witness**: a concrete batch-mode evaluation with `skip_null` also
set: the null in column 0 is passed straight through to the function. -/
theorem batch_mode_single_call_witness :
    evalDispatch (fun cols => .ok (.list [cols.headD .none])) true true true 2
        [[.int 1, .none]] =
      .ok (.list [.list [.int 1, .none]]) := by
  have h := batch_mode_single_call (fun cols => .ok (.list [cols.headD .none]))
    true true 2 [[.int 1, .none]]
  rw [h]
  rfl

/-- **C10**: parsing `DECIMAL(p,s)` compiles to `decimal128` exactly for
precisions `1 ≤ p ≤ 37` and to `decimal256` for `38 ≤ p ≤ 76`: the source
test is `precision < MAX_DECIMAL128_PRECISION` with the *strict* `<`, so
the boundary precision 38 (the named 128-bit maximum) is compiled as
256-bit. -/
theorem decimal_width_boundary :
    (∀ p s : Int, 1 ≤ p → p ≤ 76 → s ≤ p →
      ((decimalFromParts p s = .ok (.decimal128 p s)) ↔ p ≤ 37) ∧
      (38 ≤ p → decimalFromParts p s = .ok (.decimal256 p s))) ∧
    parseField "DECIMAL(37,0)" = .ok (.mk "" (.decimal128 37 0) true) ∧
    parseField "DECIMAL(38,0)" = .ok (.mk "" (.decimal256 38 0) true) ∧
    parseField "DECIMAL(76,0)" = .ok (.mk "" (.decimal256 76 0) true) := by
  refine ⟨?_, rfl, rfl, rfl⟩
  intro p s h1 h2 h3
  have hc1 : ¬(p < 1 || p > 76) = true := by simp; omega
  have hc2 : ¬(s > p) := by omega
  constructor
  · constructor
    · intro heq
      by_contra hgt
      push_neg at hgt
      have hc3 : ¬(p < 38) := by omega
      unfold decimalFromParts at heq
      rw [if_neg hc1, if_neg hc2, if_neg hc3] at heq
      simp at heq
    · intro hle
      have hc3 : p < 38 := by omega
      unfold decimalFromParts
      rw [if_neg hc1, if_neg hc2, if_pos hc3]
  · intro hge
    have hc3 : ¬(p < 38) := by omega
    unfold decimalFromParts
    rw [if_neg hc1, if_neg hc2, if_neg hc3]

/-- **C10 witness**: the boundary instances, through the theorem. -/
theorem decimal_width_boundary_witness :
    decimalFromParts 38 0 = .ok (.decimal256 38 0) ∧
    decimalFromParts 37 0 = .ok (.decimal128 37 0) :=
  ⟨(decimal_width_boundary.1 38 0 (by norm_num) (by norm_num) (by norm_num)).2
      (by norm_num),
   ((decimal_width_boundary.1 37 0 (by norm_num) (by norm_num) (by norm_num)).1).2
      (by norm_num)⟩

theorem inputStructZip_pointwise (vals : List PyVal) (fs : List FieldX)
    (ys : List PyVal) (h : inputStructZip vals fs = .ok ys) :
    ys.length = min vals.length fs.length ∧
    ∀ (i : Nat) x f, vals[i]? = some x → fs[i]? = some f →
      ∃ y, ys[i]? = some y ∧ (x = .none → y = .none) ∧
        (x ≠ .none → inputProcF f x = .ok y) := by
  induction vals generalizing fs ys with
  | nil =>
    rw [show inputStructZip [] fs = .ok [] by simp [inputStructZip]] at h
    cases h
    exact ⟨by simp, fun i x f hx hf => by simp at hx⟩
  | cons v vs ih =>
    cases fs with
    | nil =>
      rw [show inputStructZip (v :: vs) [] = .ok [] by simp [inputStructZip]] at h
      cases h
      exact ⟨by simp, fun i x f hx hf => by simp at hf⟩
    | cons f fr =>
      have hstep : ∀ y, (if isNone v then pure PyVal.none else inputProcF f v) =
          Except.ok y → inputStructZip vs fr = .ok ys.tail →
          ys.head? = some y → True := fun _ _ _ _ => trivial
      clear hstep
      have hmain : ∃ y ys', (if isNone v then pure PyVal.none else inputProcF f v) =
          Except.ok y ∧ inputStructZip vs fr = .ok ys' ∧ ys = y :: ys' := by
        simp only [inputStructZip] at h
        by_cases hc : isNone v = true
        · rw [if_pos hc] at h ⊢
          simp only [exceptPureEq, exceptOkBind] at h
          cases hz : inputStructZip vs fr with
          | error e => rw [hz] at h; simp at h
          | ok ys' =>
            rw [hz] at h
            simp at h
            exact ⟨PyVal.none, ys', rfl, rfl, h.symm⟩
        · rw [if_neg hc] at h ⊢
          cases hy : inputProcF f v with
          | error e => rw [hy] at h; simp at h
          | ok y =>
            rw [hy] at h
            simp only [exceptOkBind] at h
            cases hz : inputStructZip vs fr with
            | error e => rw [hz] at h; simp at h
            | ok ys' =>
              rw [hz] at h
              simp at h
              exact ⟨y, ys', rfl, rfl, h.symm⟩
      obtain ⟨y, ys', hy, hz, hys⟩ := hmain
      subst hys
      obtain ⟨hlen, hpt⟩ := ih fr ys' hz
      refine ⟨by simp [hlen, Nat.succ_min_succ], fun i x g hx hg => ?_⟩
      cases i with
      | zero =>
        simp at hx hg
        subst hx
        subst hg
        refine ⟨y, by simp, ?_, ?_⟩
        · intro hxn
          subst hxn
          rw [if_pos (by simp [isNone])] at hy
          simpa using hy.symm
        · intro hxn
          rw [if_neg (by simpa [isNone_iff] using hxn)] at hy
          exact hy
      | succ k =>
        simp at hx hg
        obtain ⟨y', hy', hc1, hc2⟩ := hpt k x g hx hg
        exact ⟨y', by simpa using hy', hc1, hc2⟩

/-- **C3**: with `skip_null` set and batch mode off, each row whose argument
tuple contains a null yields null without the user function being scheduled
(the task holds `_null_func`), and every other row yields the user function
applied to that row's arguments; sequential and concurrent per-row modes
produce identical columns. -/
theorem skip_null_row_semantics (g : List PyVal → PyVal) (n : Nat)
    (inputs : List (List PyVal)) :
    evalDispatch (fun args => .ok (g args)) false true false n inputs =
      .ok (.list ((List.range n).map (fun row =>
        if (rowArgs inputs row).any isNone then PyVal.none
        else g (rowArgs inputs row)))) ∧
    evalDispatch (fun args => .ok (g args)) false true true n inputs =
      evalDispatch (fun args => .ok (g args)) false true false n inputs ∧
    ∀ (row : Nat), row < n → (rowArgs inputs row).any isNone = true →
      (concTasks (fun args => .ok (g args)) true n inputs)[row]? =
        some (nullFunc, rowArgs inputs row) := by
  have hseq : ((List.range n).mapM (fun row =>
      (if (rowArgs inputs row).any isNone then pure PyVal.none
       else Except.ok (g (rowArgs inputs row)) : Except String PyVal))) =
      .ok ((List.range n).map (fun row =>
        if (rowArgs inputs row).any isNone then PyVal.none
        else g (rowArgs inputs row))) := by
    apply mapM_ok_of
    intro row _
    by_cases hrow : (rowArgs inputs row).any isNone
    · rw [if_pos hrow, if_pos hrow]; rfl
    · rw [if_neg hrow, if_neg hrow]
  refine ⟨?_, ?_, ?_⟩
  · simp only [evalDispatch, if_false, if_true, Bool.false_eq_true, Bool.true_eq_false]
    rw [hseq]
    rfl
  · simp only [evalDispatch, concTasks, if_false, if_true, Bool.false_eq_true,
      Bool.true_eq_false]
    rw [mapM_map]
    rw [mapM_congr (List.range n) _
      (fun row => (if (rowArgs inputs row).any isNone then pure PyVal.none
        else Except.ok (g (rowArgs inputs row)) : Except String PyVal))
      (fun row _ => by
        by_cases hrow : (rowArgs inputs row).any isNone
        · simp only [if_pos hrow]
          rfl
        · simp only [if_neg hrow])]
  · intro row hlt hrow
    simp only [concTasks, if_true]
    rw [List.getElem?_map, List.getElem?_range hlt]
    simp only [Option.map_some']
    rw [if_pos hrow]

/-- **C3 witness**: the spec's example — a 3-row batch whose single column
has a null in row 1 yields `[f(r0), null, f(r2)]`, identically in both
per-row modes, and row 1's task is `_null_func`. -/
theorem skip_null_row_semantics_witness :
    evalDispatch (fun args => .ok (.list args)) false true false 3
        [[.int 1, .none, .int 3]] =
      .ok (.list [.list [.int 1], .none, .list [.int 3]]) ∧
    evalDispatch (fun args => .ok (.list args)) false true true 3
        [[.int 1, .none, .int 3]] =
      .ok (.list [.list [.int 1], .none, .list [.int 3]]) ∧
    (concTasks (fun args => .ok (.list args)) true 3 [[.int 1, .none, .int 3]])[1]? =
      some (nullFunc, [.none]) := by
  obtain ⟨h1, h2, h3⟩ :=
    skip_null_row_semantics (fun args => .list args) 3 [[.int 1, .none, .int 3]]
  refine ⟨?_, ?_, ?_⟩
  · rw [h1]; rfl
  · rw [h2, h1]; rfl
  · have := h3 1 (by norm_num) (by rfl)
    simpa using this

/-- **C4**: registering with `skip_null` and a non-nullable output type
raises the configuration `ValueError` synchronously inside `__init__`, so no
function object is produced (nothing can be added to the server's registry);
with a nullable output the registration succeeds and stores
`skip_null = true`. -/
theorem skip_null_requires_nullable_output
    (fname : String) (func : List PyVal → Except String PyVal)
    (resultType : String) (fld : FieldX) (io : Option Nat) (bm : Bool)
    (hparse : parseField resultType = .ok fld) :
    (fld.nullable = false →
      scalarFunctionInit fname func [] [] resultType io (some true) bm =
        .error ("Return type of function " ++ fname ++
          " must be nullable when skip_null is True")) ∧
    (fld.nullable = true →
      ∃ fn, scalarFunctionInit fname func [] [] resultType io (some true) bm = .ok fn ∧
        fn.skipNull = true ∧ fn.resultField = fld.withName "output") := by
  constructor
  · intro hnn
    simp [scalarFunctionInit, hparse, withName_nullable, hnn, List.mapM.loop]
  · intro hn
    refine ⟨⟨fname, func, [], fld.withName "output", true, bm, io.isSome⟩, ?_, rfl, rfl⟩
    simp [scalarFunctionInit, hparse, withName_nullable, hn, List.mapM.loop]

/-- **C4 witness**: `INT NOT NULL` output with `skip_null` is rejected;
`INT` output is accepted with `skip_null` stored as true. -/
theorem skip_null_requires_nullable_output_witness :
    scalarFunctionInit "f" (fun _ => .ok .none) [] [] "INT NOT NULL" Option.none
        (some true) false =
      .error "Return type of function f must be nullable when skip_null is True" ∧
    ∃ fn, scalarFunctionInit "f" (fun _ => .ok .none) [] [] "INT" Option.none
        (some true) false = .ok fn ∧ fn.skipNull = true := by
  constructor
  · exact (skip_null_requires_nullable_output "f" (fun _ => .ok .none) "INT NOT NULL"
      (.mk "" .int32 false) Option.none false rfl).1 rfl
  · obtain ⟨fn, hfn, hsk, _⟩ := (skip_null_requires_nullable_output "f"
      (fun _ => .ok .none) "INT" (.mk "" .int32 true) Option.none false rfl).2 rfl
    exact ⟨fn, hfn, hsk⟩

/-- **C7**: the compiled decode function of a list field maps a null
sequence to null — not to an empty sequence — and maps a non-null sequence
to the elementwise decodes, preserving null elements at their positions. -/
theorem list_decode_semantics (nm : String) (nb : Bool) (ef : FieldX) :
    (inputProcF (.mk nm (.listT ef) nb) .none = .ok .none ∧
     inputProcF (.mk nm (.listT ef) nb) .none ≠ .ok (.list [])) ∧
    (∀ xs, inputProcF (.mk nm (.listT ef) nb) (.list xs) =
      (xs.mapM (fun x => if isNone x then pure PyVal.none else inputProcF ef x)).map
        PyVal.list) ∧
    (∀ xs ys, inputProcF (.mk nm (.listT ef) nb) (.list xs) = .ok (.list ys) →
      ys.length = xs.length ∧
      (∀ (i : Nat), xs[i]? = some PyVal.none → ys[i]? = some PyVal.none) ∧
      (∀ (i : Nat) x, xs[i]? = some x → x ≠ .none →
        ∃ y, ys[i]? = some y ∧ inputProcF ef x = .ok y)) := by
  refine ⟨⟨by simp [inputProcF], by simp [inputProcF]⟩, fun xs => by simp [inputProcF],
    fun xs ys h => ?_⟩
  rw [show inputProcF (.mk nm (.listT ef) nb) (.list xs) =
    (xs.mapM (fun x => if isNone x then pure PyVal.none else inputProcF ef x)).map
      PyVal.list by simp [inputProcF]] at h
  cases hm : xs.mapM (fun x => if isNone x then pure PyVal.none else inputProcF ef x) with
  | error e => rw [hm] at h; simp at h
  | ok zs =>
    rw [hm] at h
    simp at h
    subst h
    obtain ⟨hlen, hpt⟩ := mapM_ok_pointwise _ _ _ hm
    refine ⟨hlen, fun i hx => ?_, fun i x hx hxn => ?_⟩
    · obtain ⟨y, hy, hFy⟩ := hpt i PyVal.none hx
      rw [if_pos (by simp [isNone])] at hFy
      simp at hFy
      rw [hy, hFy]
    · obtain ⟨y, hy, hFy⟩ := hpt i x hx
      rw [if_neg (by simpa [isNone_iff] using hxn)] at hFy
      exact ⟨y, hy, hFy⟩

/-- **C7 witness**: decoding `[1, null, 3]` with an INT element field keeps
the null at index 1, and a null list decodes to null. -/
theorem list_decode_semantics_witness :
    inputProcF (.mk "" (.listT (.mk "" .int32 false)) true)
        (.list [.int 1, .none, .int 3]) = .ok (.list [.int 1, .none, .int 3]) ∧
    inputProcF (.mk "" (.listT (.mk "" .int32 false)) true) .none = .ok .none := by
  obtain ⟨⟨hnull, _⟩, heq, _⟩ := list_decode_semantics "" true (.mk "" .int32 false)
  refine ⟨?_, hnull⟩
  rw [heq [.int 1, .none, .int 3]]
  simp [inputProcF, isNone, List.mapM, List.mapM.loop]

/-- **C8 (amended)**: the compiled decode function of a struct field maps a
null record to null, and maps a keyed record to a tuple built by zipping the
record's values *in the record's own order* positionally with the declared
fields' decoders (the record's keys are never consulted); when the record
presents its entries in declared field order — as the columnar layer does —
each element is therefore the corresponding declared field's decoded value,
with nulls preserved. -/
theorem struct_decode_positional (nm : String) (nb : Bool) (fs : List FieldX) :
    (inputProcF (.mk nm (.structT fs) nb) .none = .ok .none) ∧
    (∀ kvs, inputProcF (.mk nm (.structT fs) nb) (.dict kvs) =
      (inputStructZip (kvs.map Prod.snd) fs).map PyVal.tup) ∧
    (∀ vals ys, inputStructZip vals fs = .ok ys →
      ys.length = min vals.length fs.length ∧
      ∀ (i : Nat) x f, vals[i]? = some x → fs[i]? = some f →
        ∃ y, ys[i]? = some y ∧ (x = .none → y = .none) ∧
          (x ≠ .none → inputProcF f x = .ok y)) :=
  ⟨by simp [inputProcF], fun kvs => by simp [inputProcF],
   fun vals ys h => inputStructZip_pointwise vals fs ys h⟩

/-- **C8 counterexample**: the claim says the element for each declared
field is that field's value regardless of the record's own key order.  For
the declared fields `a` (first) and `b` (second) and the record
`{"b": 2, "a": 1}`, the claim predicts the tuple `(1, 2)` — field `a`
holds 1 — but the code zips `map.values()` positionally with the decoders
and produces `(2, 1)`. -/
theorem struct_decode_ignores_keys :
    inputProcF (.mk "" (.structT [.mk "a" .int32 true, .mk "b" .int32 true]) true)
        (.dict [(.str "b", .int 2), (.str "a", .int 1)]) =
      .ok (.tup [.int 2, .int 1]) ∧
    (Except.ok (PyVal.tup [.int 2, .int 1]) : Except String PyVal) ≠
      .ok (.tup [.int 1, .int 2]) := by
  constructor
  · simp [inputProcF, inputStructZip, isNone]
  · intro h
    simp at h

/-- **C8 witness**: for a record whose entries arrive in declared field
order (as produced by the columnar layer) the positional zip gives each
declared field its own decoded value. -/
theorem struct_decode_positional_witness :
    inputProcF (.mk "" (.structT [.mk "a" .int32 true, .mk "b" .int32 true]) true)
        (.dict [(.str "a", .int 1), (.str "b", .none)]) =
      .ok (.tup [.int 1, .none]) ∧
    inputProcF (.mk "" (.structT [.mk "a" .int32 true, .mk "b" .int32 true]) true)
        .none = .ok .none := by
  obtain ⟨hnull, heq, _⟩ :=
    struct_decode_positional "" true [.mk "a" .int32 true, .mk "b" .int32 true]
  refine ⟨?_, hnull⟩
  rw [heq [(.str "a", .int 1), (.str "b", .none)]]
  simp [inputStructZip, inputProcF, isNone]

/-- **C9 (amended)**: an error raised while evaluating a row (or the whole
batch in batch mode) aborts the evaluation of that batch: the result is the
raised error itself — re-raised unchanged by the exchange handler, with no
function-name or row-index annotation attached — and no output column (hence
no output batch) is produced, in sequential, concurrent and batch modes
alike. -/
theorem eval_error_aborts_unchanged
    (f : List PyVal → Except String PyVal) (n j : Nat)
    (inputs : List (List PyVal)) (e : String)
    (hj : j < n)
    (hok : ∀ i, i < j → ∃ v, f (rowArgs inputs i) = .ok v)
    (herr : f (rowArgs inputs j) = .error e) :
    evalDispatch f false false false n inputs = .error e ∧
    evalDispatch f false false true n inputs = .error e ∧
    (∀ (fB : List PyVal → Except String PyVal) (eB : String)
        (inputsB : List (List PyVal)) (nB : Nat) (sk hx : Bool),
      fB (inputsB.map PyVal.list) = .error eB →
      evalDispatch fB true sk hx nB inputsB = .error eB) := by
  have hsplit : List.range n =
      List.range j ++ j :: (List.range (n - (j + 1))).map (fun k => j + 1 + k) := by
    have hn : n = (j + 1) + (n - (j + 1)) := by omega
    rw [hn, List.range_add, List.range_succ]
    simp
  have hmapM : (List.range n).mapM (fun row => f (rowArgs inputs row)) = .error e := by
    rw [hsplit]
    exact mapM_error_append _ _ _ _ _
      (fun i hi => hok i (List.mem_range.mp hi)) herr
  refine ⟨?_, ?_, fun fB eB inputsB nB sk hx hB => ?_⟩
  · simp only [evalDispatch, if_false, Bool.false_eq_true]
    rw [hmapM]
    rfl
  · simp only [evalDispatch, concTasks, if_false, if_true, Bool.false_eq_true,
      Bool.true_eq_false]
    rw [mapM_map]
    rw [mapM_congr (List.range n) _ (fun row => f (rowArgs inputs row))
      (fun row _ => rfl)]
    rw [hmapM]
    rfl
  · simp only [evalDispatch, if_true]
    exact hB

/-- **C9 witness**: a function failing with `"boom"` at row 1 of a 3-row
batch aborts all three modes with exactly `"boom"`. -/
theorem eval_error_aborts_unchanged_witness :
    evalDispatch (fun args => match args with
        | [PyVal.int 2] => .error "boom"
        | _ => .ok (.int 0)) false false false 3 [[.int 1, .int 2, .int 3]] =
      .error "boom" ∧
    evalDispatch (fun args => match args with
        | [PyVal.int 2] => .error "boom"
        | _ => .ok (.int 0)) false false true 3 [[.int 1, .int 2, .int 3]] =
      .error "boom" := by
  obtain ⟨h1, h2, _⟩ := eval_error_aborts_unchanged
    (fun args => match args with
      | [PyVal.int 2] => .error "boom"
      | _ => .ok (.int 0)) 3 1 [[.int 1, .int 2, .int 3]] "boom"
    (by norm_num)
    (fun i hi => by
      have hi0 : i = 0 := by omega
      subst hi0
      exact ⟨.int 0, rfl⟩)
    rfl
  exact ⟨h1, h2⟩

/-- **C9 counterexample**: the claim asserts that the surfaced error is
annotated with the function name and the offending row index.  For the
function registered as `my_udf` failing at row index 1 with `"boom"`, the
full pipeline (and the exchange handler, which re-raises with `raise e`)
surfaces exactly `"boom"`: it contains neither the function name `my_udf`
nor the row index `1`, and no output batch is emitted for the batch. -/
theorem eval_error_not_annotated :
    evalBatchFn
        ⟨"my_udf",
         (fun args => match args with
           | [PyVal.int 2] => .error "boom"
           | _ => .ok (.int 0)),
         [.mk "x" .int32 true], .mk "output" .int32 true, false, false, false⟩
        3 [[.int 1, .int 2, .int 3]] = .error "boom" ∧
    doExchangeImpl
        ⟨"my_udf",
         (fun args => match args with
           | [PyVal.int 2] => .error "boom"
           | _ => .ok (.int 0)),
         [.mk "x" .int32 true], .mk "output" .int32 true, false, false, false⟩
        [(3, [[.int 1, .int 2, .int 3]])] = .error "boom" ∧
    isSubOf "my_udf".data "boom".data = false ∧
    isSubOf "1".data "boom".data = false := by
  have h1 : evalBatchFn
      ⟨"my_udf",
       (fun args => match args with
         | [PyVal.int 2] => .error "boom"
         | _ => .ok (.int 0)),
       [.mk "x" .int32 true], .mk "output" .int32 true, false, false, false⟩
      3 [[.int 1, .int 2, .int 3]] = .error "boom" := by
    simp [evalBatchFn, decodeColumn, listField, inputProcF, isNone, evalDispatch,
      rowArgs, List.range_succ, List.mapM, List.mapM.loop]
  refine ⟨h1, ?_, rfl, rfl⟩
  simp [doExchangeImpl, List.mapM, List.mapM.loop, h1]

theorem mkDict_foldl_of_nodup (kvs : List (PyVal × PyVal)) :
    ∀ acc : List (PyVal × PyVal),
    (∀ kv ∈ kvs, acc.any (fun e => pyEqB e.1 kv.1) = false) →
    keysNodupB kvs = true →
    kvs.foldl (fun acc kv =>
      if acc.any (fun e => pyEqB e.1 kv.1) then
        acc.map (fun e => if pyEqB e.1 kv.1 then (e.1, kv.2) else e)
      else acc ++ [kv]) acc = acc ++ kvs := by
  induction kvs with
  | nil => intro acc _ _; simp
  | cons kv r ih =>
    intro acc hdisj hnodup
    obtain ⟨k, w⟩ := kv
    have hhead := hdisj (k, w) (List.mem_cons_self _ _)
    rw [List.foldl_cons, if_neg (by simp [hhead])]
    have hnd : keysNodupB ((k, w) :: r) =
        (!(r.any (fun kv => pyEqB k kv.1)) && keysNodupB r) := by
      simp [keysNodupB]
    rw [hnd] at hnodup
    simp only [Bool.and_eq_true, Bool.not_eq_true'] at hnodup
    have hstep := ih (acc ++ [(k, w)]) ?_ hnodup.2
    · rw [hstep]
      simp
    · intro kv' hkv'
      rw [List.any_append]
      have h1 := hdisj kv' (List.mem_cons_of_mem _ hkv')
      have h2 : pyEqB k kv'.1 = false := by
        have := hnodup.1
        simp only [List.any_eq_false] at this
        simpa using this kv' hkv'
      simp [h1, List.any_cons, pyEqB, h2]

theorem mkDict_eq_self (kvs : List (PyVal × PyVal)) (h : keysNodupB kvs = true) :
    mkDict kvs = kvs := by
  have := mkDict_foldl_of_nodup kvs [] (by simp) h
  simpa [mkDict] using this

theorem ensureStrList_length (xs : List PyVal) :
    (ensureStrList xs).length = xs.length := by
  induction xs with
  | nil => simp [ensureStrList]
  | cons x r ih => simp [ensureStrList, ih]

theorem ensureStrList_getElem (xs : List PyVal) (i : Nat) :
    (ensureStrList xs)[i]? = (xs[i]?).map ensureStr := by
  induction xs generalizing i with
  | nil => simp [ensureStrList]
  | cons x r ih =>
    cases i with
    | zero => simp [ensureStrList]
    | succ k => simpa [ensureStrList] using ih k

theorem ensureStrKVs_length (kvs : List (PyVal × PyVal)) :
    (ensureStrKVs kvs).length = kvs.length := by
  induction kvs with
  | nil => simp [ensureStrKVs]
  | cons kv r ih =>
    obtain ⟨k, w⟩ := kv
    simp [ensureStrKVs, ih]

theorem ensureStrKVs_getElem (kvs : List (PyVal × PyVal)) (i : Nat) :
    (ensureStrKVs kvs)[i]? = (kvs[i]?).map (fun p => (ensureStr p.1, ensureStr p.2)) := by
  induction kvs generalizing i with
  | nil => simp [ensureStrKVs]
  | cons kv r ih =>
    obtain ⟨k, w⟩ := kv
    cases i with
    | zero => simp [ensureStrKVs]
    | succ j => simpa [ensureStrKVs] using ih j

theorem wfVariantList_mem (xs : List PyVal) (h : wfVariantList xs = true) :
    ∀ x ∈ xs, wfVariant x = true := by
  induction xs with
  | nil => intro x hx; simp at hx
  | cons a r ih =>
    rw [show wfVariantList (a :: r) = (wfVariant a && wfVariantList r) by
      simp [wfVariantList]] at h
    simp only [Bool.and_eq_true] at h
    intro x hx
    rcases List.mem_cons.mp hx with hx | hx
    · subst hx; exact h.1
    · exact ih h.2 x hx

theorem wfVariantKVs_mem (kvs : List (PyVal × PyVal)) (h : wfVariantKVs kvs = true) :
    ∀ p ∈ kvs, wfKeyB p.1 = true ∧ wfVariant p.2 = true := by
  induction kvs with
  | nil => intro p hp; simp at hp
  | cons kv r ih =>
    obtain ⟨k, w⟩ := kv
    rw [show wfVariantKVs ((k, w) :: r) = (wfKeyB k && wfVariant w && wfVariantKVs r) by
      simp [wfVariantKVs]] at h
    simp only [Bool.and_eq_true] at h
    intro p hp
    rcases List.mem_cons.mp hp with hp | hp
    · subst hp; exact ⟨h.1.1, h.1.2⟩
    · exact ih h.2 p hp

theorem wf_to_image_aux : ∀ n : Nat,
    (∀ v, sizeOf v ≤ n → wfVariant v = true → jsonImageB (ensureStr v) = true) ∧
    (∀ xs, sizeOf xs ≤ n → wfVariantList xs = true →
      jsonImageList (ensureStrList xs) = true) ∧
    (∀ kvs, sizeOf kvs ≤ n → wfVariantKVs kvs = true →
      jsonImageKVs (ensureStrKVs kvs) = true) := by
  intro n
  induction n using Nat.strong_induction_on with
  | _ n IH =>
  refine ⟨?_, ?_, ?_⟩
  · intro v hsz hwf
    cases v with
    | none => simp [ensureStr, jsonImageB]
    | bool b => simp [ensureStr, jsonImageB]
    | int m => simp [ensureStr, jsonImageB]
    | str s => simp [ensureStr, jsonImageB]
    | bytes s => simp [ensureStr, jsonImageB]
    | tup xs => simp [wfVariant] at hwf
    | jsonText j => simp [wfVariant] at hwf
    | list xs =>
      rw [show wfVariant (.list xs) = wfVariantList xs by simp [wfVariant]] at hwf
      rw [show ensureStr (.list xs) = .list (ensureStrList xs) by simp [ensureStr]]
      rw [show jsonImageB (.list (ensureStrList xs)) = jsonImageList (ensureStrList xs) by
        simp [jsonImageB]]
      have hspec : sizeOf (PyVal.list xs) = 1 + sizeOf xs := by simp
      have hlt : sizeOf xs < n := by omega
      exact (IH (sizeOf xs) hlt).2.1 xs le_rfl hwf
    | dict kvs =>
      rw [show wfVariant (.dict kvs) =
        (wfVariantKVs kvs && keysNodupB (ensureStrKVs kvs)) by simp [wfVariant]] at hwf
      simp only [Bool.and_eq_true] at hwf
      rw [show ensureStr (.dict kvs) = .dict (mkDict (ensureStrKVs kvs)) by
        simp [ensureStr]]
      rw [mkDict_eq_self _ hwf.2]
      rw [show jsonImageB (.dict (ensureStrKVs kvs)) =
        (jsonImageKVs (ensureStrKVs kvs) && keysNodupB (ensureStrKVs kvs)) by
        simp [jsonImageB]]
      have hspec : sizeOf (PyVal.dict kvs) = 1 + sizeOf kvs := by simp
      have hlt : sizeOf kvs < n := by omega
      simp [(IH (sizeOf kvs) hlt).2.2 kvs le_rfl hwf.1, hwf.2]
  · intro xs hsz hwfl
    cases xs with
    | nil => simp [ensureStrList, jsonImageList]
    | cons x r =>
      rw [show wfVariantList (x :: r) = (wfVariant x && wfVariantList r) by
        simp [wfVariantList]] at hwfl
      simp only [Bool.and_eq_true] at hwfl
      rw [show ensureStrList (x :: r) = ensureStr x :: ensureStrList r by
        simp [ensureStrList]]
      rw [show jsonImageList (ensureStr x :: ensureStrList r) =
        (jsonImageB (ensureStr x) && jsonImageList (ensureStrList r)) by
        simp [jsonImageList]]
      have hspec : sizeOf (x :: r) = 1 + sizeOf x + sizeOf r := by simp
      have h1 : sizeOf x < n := by omega
      have h2 : sizeOf r < n := by omega
      simp [(IH (sizeOf x) h1).1 x le_rfl hwfl.1,
        (IH (sizeOf r) h2).2.1 r le_rfl hwfl.2]
  · intro kvs hsz hwfk
    cases kvs with
    | nil => simp [ensureStrKVs, jsonImageKVs]
    | cons kv r =>
      obtain ⟨k, w⟩ := kv
      rw [show wfVariantKVs ((k, w) :: r) =
        (wfKeyB k && wfVariant w && wfVariantKVs r) by simp [wfVariantKVs]] at hwfk
      simp only [Bool.and_eq_true] at hwfk
      rw [show ensureStrKVs ((k, w) :: r) =
        (ensureStr k, ensureStr w) :: ensureStrKVs r by simp [ensureStrKVs]]
      rw [show jsonImageKVs ((ensureStr k, ensureStr w) :: ensureStrKVs r) =
        (wfKeyStrB (ensureStr k) && jsonImageB (ensureStr w) &&
          jsonImageKVs (ensureStrKVs r)) by simp [jsonImageKVs]]
      have hkey : wfKeyStrB (ensureStr k) = true := by
        cases k <;> simp [wfKeyB] at hwfk ⊢ <;> simp [ensureStr, wfKeyStrB]
      have hspec : sizeOf ((k, w) :: r) = 1 + (1 + sizeOf k + sizeOf w) + sizeOf r := by
        simp
      have h1 : sizeOf w < n := by omega
      have h2 : sizeOf r < n := by omega
      simp [hkey, (IH (sizeOf w) h1).1 w le_rfl hwfk.1.2,
        (IH (sizeOf r) h2).2.2 r le_rfl hwfk.2]

theorem image_round_aux : ∀ n : Nat,
    (∀ w, sizeOf w ≤ n → jsonImageB w = true →
      ∃ j, pyDumps w = .ok j ∧ pyLoads j = w) ∧
    (∀ ws, sizeOf ws ≤ n → jsonImageList ws = true →
      ∃ js, pyDumpsList ws = .ok js ∧ pyLoadsList js = ws) ∧
    (∀ kvs, sizeOf kvs ≤ n → jsonImageKVs kvs = true →
      ∃ jkvs, pyDumpsKVs kvs = .ok jkvs ∧ pyLoadsKVs jkvs = kvs) := by
  intro n
  induction n using Nat.strong_induction_on with
  | _ n IH =>
  refine ⟨?_, ?_, ?_⟩
  · intro w hsz himg
    cases w with
    | none => exact ⟨.null, by simp [pyDumps], by simp [pyLoads]⟩
    | bool b => exact ⟨.jb b, by simp [pyDumps], by simp [pyLoads]⟩
    | int m => exact ⟨.ji m, by simp [pyDumps], by simp [pyLoads]⟩
    | str s => exact ⟨.js s, by simp [pyDumps], by simp [pyLoads]⟩
    | bytes s => simp [jsonImageB] at himg
    | tup xs => simp [jsonImageB] at himg
    | jsonText j => simp [jsonImageB] at himg
    | list xs =>
      rw [show jsonImageB (.list xs) = jsonImageList xs by simp [jsonImageB]] at himg
      have hspec : sizeOf (PyVal.list xs) = 1 + sizeOf xs := by simp
      have hlt : sizeOf xs < n := by omega
      obtain ⟨js, hd, hl⟩ := (IH (sizeOf xs) hlt).2.1 xs le_rfl himg
      refine ⟨.jarr js, ?_, ?_⟩
      · rw [show pyDumps (.list xs) = (pyDumpsList xs).map .jarr by simp [pyDumps], hd]
        rfl
      · rw [show pyLoads (.jarr js) = .list (pyLoadsList js) by simp [pyLoads], hl]
    | dict kvs =>
      rw [show jsonImageB (.dict kvs) = (jsonImageKVs kvs && keysNodupB kvs) by
        simp [jsonImageB]] at himg
      simp only [Bool.and_eq_true] at himg
      have hspec : sizeOf (PyVal.dict kvs) = 1 + sizeOf kvs := by simp
      have hlt : sizeOf kvs < n := by omega
      obtain ⟨jkvs, hd, hl⟩ := (IH (sizeOf kvs) hlt).2.2 kvs le_rfl himg.1
      refine ⟨.jobj jkvs, ?_, ?_⟩
      · rw [show pyDumps (.dict kvs) = (pyDumpsKVs kvs).map .jobj by simp [pyDumps], hd]
        rfl
      · rw [show pyLoads (.jobj jkvs) = .dict (mkDict (pyLoadsKVs jkvs)) by
          simp [pyLoads], hl, mkDict_eq_self _ himg.2]
  · intro ws hsz himg
    cases ws with
    | nil => exact ⟨[], by simp [pyDumpsList], by simp [pyLoadsList]⟩
    | cons x r =>
      rw [show jsonImageList (x :: r) = (jsonImageB x && jsonImageList r) by
        simp [jsonImageList]] at himg
      simp only [Bool.and_eq_true] at himg
      have hspec : sizeOf (x :: r) = 1 + sizeOf x + sizeOf r := by simp
      have h1 : sizeOf x < n := by omega
      have h2 : sizeOf r < n := by omega
      obtain ⟨j, hdj, hlj⟩ := (IH (sizeOf x) h1).1 x le_rfl himg.1
      obtain ⟨js, hdr, hlr⟩ := (IH (sizeOf r) h2).2.1 r le_rfl himg.2
      refine ⟨j :: js, ?_, ?_⟩
      · simp only [pyDumpsList]
        rw [hdj]
        simp only [exceptOkBind]
        rw [hdr]
        rfl
      · rw [show pyLoadsList (j :: js) = pyLoads j :: pyLoadsList js by
          simp [pyLoadsList], hlj, hlr]
  · intro kvs hsz himg
    cases kvs with
    | nil => exact ⟨[], by simp [pyDumpsKVs], by simp [pyLoadsKVs]⟩
    | cons kv r =>
      obtain ⟨k, w⟩ := kv
      rw [show jsonImageKVs ((k, w) :: r) =
        (wfKeyStrB k && jsonImageB w && jsonImageKVs r) by simp [jsonImageKVs]] at himg
      simp only [Bool.and_eq_true] at himg
      obtain ⟨s, hk⟩ : ∃ s, k = PyVal.str s := by
        cases k <;> first
          | exact ⟨_, rfl⟩
          | simp [wfKeyStrB] at himg
      subst hk
      have hspec : sizeOf ((PyVal.str s, w) :: r) =
          1 + (1 + sizeOf (PyVal.str s) + sizeOf w) + sizeOf r := by simp
      have h1 : sizeOf w < n := by omega
      have h2 : sizeOf r < n := by omega
      obtain ⟨jw, hdw, hlw⟩ := (IH (sizeOf w) h1).1 w le_rfl himg.1.2
      obtain ⟨jr, hdr, hlr⟩ := (IH (sizeOf r) h2).2.2 r le_rfl himg.2
      refine ⟨(s, jw) :: jr, ?_, ?_⟩
      · simp only [pyDumpsKVs]
        rw [show keyToStr (PyVal.str s) = .ok s from rfl]
        simp only [exceptOkBind]
        rw [hdw]
        simp only [exceptOkBind]
        rw [hdr]
        rfl
      · rw [show pyLoadsKVs ((s, jw) :: jr) =
          (PyVal.str s, pyLoads jw) :: pyLoadsKVs jr by simp [pyLoadsKVs], hlw, hlr]

theorem equiv_ensureStr_aux : ∀ n : Nat,
    (∀ v, sizeOf v ≤ n → wfVariant v = true → VariantEquiv v (ensureStr v)) ∧
    (∀ xs, sizeOf xs ≤ n → wfVariantList xs = true →
      ∀ (i : Nat) x y, xs[i]? = some x → (ensureStrList xs)[i]? = some y →
        VariantEquiv x y) ∧
    (∀ kvs, sizeOf kvs ≤ n → wfVariantKVs kvs = true →
      ∀ (i : Nat) p q, kvs[i]? = some p → (ensureStrKVs kvs)[i]? = some q →
        VariantEquiv p.1 q.1 ∧ VariantEquiv p.2 q.2) := by
  intro n
  induction n using Nat.strong_induction_on with
  | _ n IH =>
  refine ⟨?_, ?_, ?_⟩
  · intro v hsz hwf
    cases v with
    | none =>
      rw [show ensureStr PyVal.none = PyVal.none by simp [ensureStr]]
      exact VariantEquiv.vnone
    | bool b =>
      rw [show ensureStr (PyVal.bool b) = PyVal.bool b by simp [ensureStr]]
      exact VariantEquiv.vbool b
    | int m =>
      rw [show ensureStr (PyVal.int m) = PyVal.int m by simp [ensureStr]]
      exact VariantEquiv.vint m
    | str s =>
      rw [show ensureStr (PyVal.str s) = PyVal.str s by simp [ensureStr]]
      exact VariantEquiv.vstr s
    | bytes s =>
      rw [show ensureStr (PyVal.bytes s) = PyVal.str s by simp [ensureStr]]
      exact VariantEquiv.vbytes s
    | tup xs => simp [wfVariant] at hwf
    | jsonText j => simp [wfVariant] at hwf
    | list xs =>
      rw [show wfVariant (.list xs) = wfVariantList xs by simp [wfVariant]] at hwf
      rw [show ensureStr (.list xs) = .list (ensureStrList xs) by simp [ensureStr]]
      have hspec : sizeOf (PyVal.list xs) = 1 + sizeOf xs := by simp
      have hlt : sizeOf xs < n := by omega
      exact VariantEquiv.vlist xs (ensureStrList xs) (ensureStrList_length xs).symm
        ((IH (sizeOf xs) hlt).2.1 xs le_rfl hwf)
    | dict kvs =>
      rw [show wfVariant (.dict kvs) =
        (wfVariantKVs kvs && keysNodupB (ensureStrKVs kvs)) by simp [wfVariant]] at hwf
      simp only [Bool.and_eq_true] at hwf
      rw [show ensureStr (.dict kvs) = .dict (mkDict (ensureStrKVs kvs)) by
        simp [ensureStr]]
      rw [mkDict_eq_self _ hwf.2]
      have hspec : sizeOf (PyVal.dict kvs) = 1 + sizeOf kvs := by simp
      have hlt : sizeOf kvs < n := by omega
      have hpt := (IH (sizeOf kvs) hlt).2.2 kvs le_rfl hwf.1
      exact VariantEquiv.vdict kvs (ensureStrKVs kvs) (ensureStrKVs_length kvs).symm
        (fun i p q hp hq => (hpt i p q hp hq).1)
        (fun i p q hp hq => (hpt i p q hp hq).2)
  · intro xs hsz hwfl i x y hx hy
    rw [ensureStrList_getElem, hx] at hy
    simp only [Option.map_some'] at hy
    cases hy
    have hmem : x ∈ xs := List.getElem?_mem hx
    have hszx : sizeOf x < n := by
      have := List.sizeOf_lt_of_mem hmem
      omega
    exact (IH (sizeOf x) hszx).1 x le_rfl (wfVariantList_mem xs hwfl x hmem)
  · intro kvs hsz hwfk i p q hp hq
    rw [ensureStrKVs_getElem, hp] at hq
    simp only [Option.map_some'] at hq
    cases hq
    have hmem : p ∈ kvs := List.getElem?_mem hp
    obtain ⟨hkey, hval⟩ := wfVariantKVs_mem kvs hwfk p hmem
    constructor
    · show VariantEquiv p.1 (ensureStr p.1)
      cases hk2 : p.1 <;> rw [hk2] at hkey <;> simp only [wfKeyB] at hkey <;>
        try exact absurd hkey Bool.false_ne_true
      all_goals rename_i s
      · rw [show ensureStr (PyVal.str s) = PyVal.str s by simp [ensureStr]]
        exact VariantEquiv.vstr s
      · rw [show ensureStr (PyVal.bytes s) = PyVal.str s by simp [ensureStr]]
        exact VariantEquiv.vbytes s
    · show VariantEquiv p.2 (ensureStr p.2)
      have hszp : sizeOf p.2 < n := by
        have h1 := List.sizeOf_lt_of_mem hmem
        have h2 : sizeOf p.2 < sizeOf p := by
          obtain ⟨a, b⟩ := p
          simp only [Prod.mk.sizeOf_spec]
          omega
        omega
      exact (IH (sizeOf p.2) hszp).1 p.2 le_rfl hval

/-- **C6 (amended)**: for any nested structure built from `None`, booleans,
integers, text, byte strings, lists, and mappings with text or byte-string
keys (distinct after byte-to-text decoding), the variant output codec
produces serialized JSON text in which every byte string — however deeply
nested in lists and mappings, keys included — has been decoded as UTF-8
text; feeding that text to the variant input codec reproduces a structure
equivalent to the original (equal up to byte-string → text replacement),
and a null value encodes to null and decodes to null.  Byte strings nested
inside *tuples* are not converted and make encoding fail with a
`TypeError` (see the counterexample). -/
theorem variant_roundtrip (v : PyVal) (hwf : wfVariant v = true) :
    (outputProcF (.mk "" (.largeBinary true) true) .none = .ok .none ∧
     inputProcF (.mk "" (.largeBinary true) true) .none = .ok .none) ∧
    (v ≠ .none → ∃ j,
      outputProcF (.mk "" (.largeBinary true) true) v = .ok (.jsonText j) ∧
      inputProcF (.mk "" (.largeBinary true) true) (.jsonText j) = .ok (ensureStr v) ∧
      VariantEquiv v (ensureStr v)) := by
  refine ⟨⟨by simp [outputProcF], by simp [inputProcF]⟩, fun hv => ?_⟩
  have himg := (wf_to_image_aux (sizeOf v)).1 v le_rfl hwf
  obtain ⟨j, hd, hl⟩ :=
    (image_round_aux (sizeOf (ensureStr v))).1 (ensureStr v) le_rfl himg
  refine ⟨j, ?_, ?_, (equiv_ensureStr_aux (sizeOf v)).1 v le_rfl hwf⟩
  · have hout : outputProcF (.mk "" (.largeBinary true) true) v =
        (pyDumps (ensureStr v)).map .jsonText := by
      cases v <;> first
        | exact absurd rfl hv
        | simp [outputProcF]
    rw [hout, hd]
    rfl
  · simp [inputProcF, hl]

/-- **C6 counterexample**: the claim asserts the property for *any* nested
native structure, byte strings "nested inside sequences" included; but
`_ensure_str` does not recurse into tuples, so a byte string inside a tuple
reaches `json.dumps` unconverted and encoding raises `TypeError` instead of
yielding JSON text. -/
theorem variant_bytes_in_tuple_fails :
    outputProcF (.mk "" (.largeBinary true) true) (.tup [.bytes "x"]) =
      .error "TypeError: Object of type bytes is not JSON serializable" := by
  simp [outputProcF, ensureStr, pyDumps, pyDumpsList]

/-- **C6 witness**: a dict with a byte-string key and a list value holding a
byte string, a null and an integer round-trips through the variant codec. -/
theorem variant_roundtrip_witness :
    wfVariant (.dict [(.bytes "k", .list [.bytes "a", .none, .int 3])]) = true ∧
    (PyVal.dict [(.bytes "k", .list [.bytes "a", .none, .int 3])] ≠ .none) ∧
    (∃ j,
      outputProcF (.mk "" (.largeBinary true) true)
          (.dict [(.bytes "k", .list [.bytes "a", .none, .int 3])]) =
        .ok (.jsonText j) ∧
      inputProcF (.mk "" (.largeBinary true) true) (.jsonText j) =
        .ok (ensureStr (.dict [(.bytes "k", .list [.bytes "a", .none, .int 3])])) ∧
      VariantEquiv (.dict [(.bytes "k", .list [.bytes "a", .none, .int 3])])
        (ensureStr (.dict [(.bytes "k", .list [.bytes "a", .none, .int 3])]))) := by
  have hwf : wfVariant (.dict [(.bytes "k", .list [.bytes "a", .none, .int 3])]) = true := by
    simp [wfVariant, wfVariantKVs, wfVariantList, wfKeyB, keysNodupB, ensureStrKVs,
      ensureStrList, ensureStr]
  exact ⟨hwf, by simp,
    (variant_roundtrip (.dict [(.bytes "k", .list [.bytes "a", .none, .int 3])]) hwf).2
      (by simp)⟩
